import Mathlib

/-!
Shallow embedding of the netshit packet codecs (Ethernet / ARP / IPv4).

Byte streams are `List Nat` with each element a byte value (< 256, the u8
range of the Rust reader).  A reader is modelled by explicit state passing:
each read primitive takes the remaining stream and returns the value read
(or an error) together with the rest of the stream.  Multi-byte integer
fields are big-endian, as in the source (`read_u16`, `read_u32`,
`to_be_bytes`).  Machine integers are `Nat` with explicit `% 2 ^ w` at the
points where the source truncates.
-/

/-- Error kinds of the codec, following the spec's error taxonomy: every
`bail!`/`?` site in the source maps to the kind the spec assigns to it. -/
inductive Err : Type
  /-- stream ended before a required field or payload was fully read -/
  | truncated : Err
  /-- ethertype outside the supported set (`bail!("Unknown eth type")`) -/
  | unsupportedEthertype : Nat → Err
  /-- ARP fixed-field mismatch or unrecognized operation code -/
  | malformedArp : Err
  /-- IPv4 version/IHL/length/flags/options/checksum failure -/
  | malformedIpv4 : Err
  /-- out-of-range value handed to an encoder (ECN > 3, length overflow) -/
  | invalidField : Err
deriving DecidableEq, Repr

/-- `read_u8`: take one byte off the stream. -/
def readU8 : List Nat → Except Err Nat × List Nat
  | [] => (.error .truncated, [])
  | b :: rest => (.ok b, rest)

/-- `read_u16`: two bytes, big-endian. -/
def readU16 : List Nat → Except Err Nat × List Nat
  | a :: b :: rest => (.ok (a * 256 + b), rest)
  | _ => (.error .truncated, [])

/-- `read_u32`: four bytes, big-endian. -/
def readU32 : List Nat → Except Err Nat × List Nat
  | a :: b :: c :: d :: rest =>
      (.ok (a * 16777216 + b * 65536 + c * 256 + d), rest)
  | _ => (.error .truncated, [])

/-- `read_exact` into a buffer of `n` bytes. -/
def readExact : Nat → List Nat → Except Err (List Nat) × List Nat
  | 0, s => (.ok [], s)
  | _ + 1, [] => (.error .truncated, [])
  | n + 1, b :: s =>
      match readExact n s with
      | (.ok bs, s') => (.ok (b :: bs), s')
      | (.error e, s') => (.error e, s')

/-- `reader.take(n).read_to_end(..)`: read up to `n` bytes, no error on a
short read (the caller checks the length afterwards). -/
def readUpTo (n : Nat) (s : List Nat) : Except Err (List Nat) × List Nat :=
  (.ok (s.take n), s.drop n)

/-- `u16::to_be_bytes` (the `% 256` is the u8 truncation of each byte). -/
def u16be (x : Nat) : List Nat := [x / 256 % 256, x % 256]

/-- `u32::to_be_bytes`. -/
def u32be (x : Nat) : List Nat :=
  [x / 16777216 % 256, x / 65536 % 256, x / 256 % 256, x % 256]

/-- One step of the Internet-checksum accumulation: 16-bit one's-complement
addition with end-around carry (the `internet_checksum` crate). -/
def onesAdd (a b : Nat) : Nat :=
  ((a + b) % 65536 + (a + b) / 65536) % 65536

/-- Group a byte sequence into 16-bit big-endian words (a trailing odd byte
is padded with zero, as the crate does). -/
def words16 : List Nat → List Nat
  | [] => []
  | [a] => [a * 256]
  | a :: b :: rest => (a * 256 + b) :: words16 rest

/-- `Checksum::checksum()` as a 16-bit value: the one's complement of the
end-around-carry sum of the accumulated big-endian words.  A header is
valid iff this value is zero. -/
def checksum16 (bytes : List Nat) : Nat :=
  65535 - (words16 bytes).foldl onesAdd 0

/-- One bit-step of the reflected CRC-32 (polynomial 0xEDB88320). -/
def crc32Round (c : Nat) : Nat :=
  if c % 2 = 1 then (c / 2) ^^^ 0xEDB88320 else c / 2

/-- Fold one byte into the CRC-32 state (8 bit-steps). -/
def crc32Byte (c b : Nat) : Nat :=
  crc32Round (crc32Round (crc32Round (crc32Round
    (crc32Round (crc32Round (crc32Round (crc32Round (c ^^^ b))))))))

/-- CRC-32/ISO-HDLC over a byte sequence (init 0xFFFFFFFF, reflected,
xorout 0xFFFFFFFF), as computed by `crc::Crc<u32>::new(&CRC_32_ISO_HDLC)`. -/
def crc32 (l : List Nat) : Nat :=
  (l.foldl crc32Byte 0xFFFFFFFF) ^^^ 0xFFFFFFFF

/-- A parsed IPv4 packet (`Ipv4Packet` in `layer3/ipv4.rs`).  Fields hold
the values of the Rust machine-integer fields (`dscp ecn ttl protocol`
are u8, `identification` u16, the addresses u32, `data` a byte vector). -/
structure Ipv4Packet : Type where
  dscp : Nat
  ecn : Nat
  identification : Nat
  ttl : Nat
  protocol : Nat
  source : Nat
  destination : Nat
  data : List Nat
deriving DecidableEq, Repr

/-- The IHL-nibble interpretation of `Ipv4Packet::from_reader` (the `match
ihl` at lines 39-48): 0 means the 20-byte minimum, 1..4 is illegal, and a
value ≥ 5 is the header length in 32-bit words. -/
def ihlValue (ihl : Nat) : Except Err Nat :=
  if ihl = 0 then .ok 20
  else if ihl < 5 then .error .malformedIpv4
  else .ok (4 * ihl)

/-- `Ipv4Packet::from_reader`.  The `hasher` list collects exactly the
bytes fed to `Checksum::add_bytes`, in order. -/
def Ipv4Packet.fromReader (s : List Nat) : Except Err Ipv4Packet × List Nat :=
  match readU8 s with
  | (.error e, s) => (.error e, s)
  | (.ok byte0, s) =>
  let version := byte0 >>> 4
  let ihl0 := byte0 &&& 15
  if version ≠ 4 then (.error .malformedIpv4, s) else
  match ihlValue ihl0 with
  | .error e => (.error e, s)
  | .ok ihl =>
  match readU8 s with
  | (.error e, s) => (.error e, s)
  | (.ok byte1, s) =>
  let dscp := byte1 >>> 2
  let ecn := byte1 &&& 3
  match readU16 s with
  | (.error e, s) => (.error e, s)
  | (.ok totalLength, s) =>
  if totalLength < ihl then (.error .malformedIpv4, s) else
  match readU16 s with
  | (.error e, s) => (.error e, s)
  | (.ok identification, s) =>
  match readU16 s with
  | (.error e, s) => (.error e, s)
  | (.ok flagsAndFragOffset, s) =>
  if flagsAndFragOffset ≠ 16384 then (.error .malformedIpv4, s) else
  match readU8 s with
  | (.error e, s) => (.error e, s)
  | (.ok ttl, s) =>
  -- the source repeats the total-length check here (line 72); it is
  -- unreachable but mirrored for fidelity
  if totalLength < ihl then (.error .malformedIpv4, s) else
  match readU8 s with
  | (.error e, s) => (.error e, s)
  | (.ok protocol, s) =>
  match readU16 s with
  | (.error e, s) => (.error e, s)
  | (.ok headerChecksum, s) =>
  match readU32 s with
  | (.error e, s) => (.error e, s)
  | (.ok source, s) =>
  match readU32 s with
  | (.error e, s) => (.error e, s)
  | (.ok destination, s) =>
  let hasher := [byte0, byte1] ++ u16be totalLength ++ u16be identification
      ++ u16be flagsAndFragOffset ++ [ttl, protocol] ++ u16be headerChecksum
      ++ u32be source ++ u32be destination
  if 20 < ihl then
    -- options present: drain them, then reject
    match readExact (ihl - 20) s with
    | (.error e, s) => (.error e, s)
    | (.ok _, s) => (.error .malformedIpv4, s)
  else
  if checksum16 hasher ≠ 0 then (.error .malformedIpv4, s) else
  match readUpTo (totalLength - ihl) s with
  | (.error e, s) => (.error e, s)
  | (.ok data, s) =>
  if data.length ≠ totalLength - ihl then (.error .truncated, s) else
  (.ok { dscp, ecn, identification, ttl, protocol, source, destination,
         data }, s)

/-- `Ipv4Packet::onto_writer`.  Returns the bytes actually written to the
writer together with the error, if any, so that partial output on a failed
encode is observable.  The `% 65536` on the total length is the wrapping
behaviour of the overflowing `20u16 + len` addition (release builds wrap;
debug builds panic at that line). -/
def Ipv4Packet.ontoWriter (p : Ipv4Packet) : List Nat × Option Err :=
  if 3 < p.ecn then ([69], some .invalidField)
  else
    let de := (p.dscp <<< 2) % 256 ||| p.ecn
    if 65536 ≤ p.data.length then ([69, de], some .invalidField)
    else
      let totalLength := (20 + p.data.length) % 65536
      let hasher := [69, de] ++ u16be totalLength ++ u16be p.identification
          ++ [64, 0] ++ [p.ttl, p.protocol] ++ u32be p.source
          ++ u32be p.destination
      ([69, de] ++ u16be totalLength ++ u16be p.identification ++ [64, 0]
          ++ [p.ttl, p.protocol] ++ u16be (checksum16 hasher)
          ++ u32be p.source ++ u32be p.destination ++ p.data, none)

/-- The kind of ARP packet (`ArpOperation`). -/
inductive ArpOperation : Type
  | request : ArpOperation
  | reply : ArpOperation
deriving DecidableEq, Repr

/-- `self.operation as u16`. -/
def ArpOperation.toU16 : ArpOperation → Nat
  | .request => 1
  | .reply => 2

/-- A parsed ARP packet (`ArpPacket`); hardware addresses are 6-byte
lists, protocol addresses u32 values. -/
structure ArpPacket : Type where
  operation : ArpOperation
  senderHwAddress : List Nat
  senderProtocolAddress : Nat
  targetHwAddress : List Nat
  targetProtocolAddress : Nat
deriving DecidableEq, Repr

/-- `ArpPacket::from_reader`. -/
def ArpPacket.fromReader (s : List Nat) : Except Err ArpPacket × List Nat :=
  match readU16 s with
  | (.error e, s) => (.error e, s)
  | (.ok hwType, s) =>
  match readU16 s with
  | (.error e, s) => (.error e, s)
  | (.ok protocolType, s) =>
  match readU8 s with
  | (.error e, s) => (.error e, s)
  | (.ok hwLength, s) =>
  match readU8 s with
  | (.error e, s) => (.error e, s)
  | (.ok protocolLength, s) =>
  if hwType ≠ 1 then (.error .malformedArp, s) else
  if protocolType ≠ 2048 then (.error .malformedArp, s) else
  if hwLength ≠ 6 then (.error .malformedArp, s) else
  if protocolLength ≠ 4 then (.error .malformedArp, s) else
  match readU16 s with
  | (.error e, s) => (.error e, s)
  | (.ok op, s) =>
  match (if op = 1 then .ok ArpOperation.request
         else if op = 2 then .ok ArpOperation.reply
         else .error Err.malformedArp : Except Err ArpOperation) with
  | .error e => (.error e, s)
  | .ok operation =>
  match readExact 6 s with
  | (.error e, s) => (.error e, s)
  | (.ok senderHwAddress, s) =>
  match readU32 s with
  | (.error e, s) => (.error e, s)
  | (.ok senderProtocolAddress, s) =>
  match readExact 6 s with
  | (.error e, s) => (.error e, s)
  | (.ok targetHwAddress, s) =>
  match readU32 s with
  | (.error e, s) => (.error e, s)
  | (.ok targetProtocolAddress, s) =>
  (.ok { operation, senderHwAddress, senderProtocolAddress,
         targetHwAddress, targetProtocolAddress }, s)

/-- `ArpPacket::onto_writer`: the four wire constants, the operation code,
then the four address fields.  This encoder cannot fail. -/
def ArpPacket.ontoWriter (p : ArpPacket) : List Nat :=
  u16be 1 ++ u16be 2048 ++ [6, 4] ++ u16be p.operation.toU16
    ++ p.senderHwAddress ++ u32be p.senderProtocolAddress
    ++ p.targetHwAddress ++ u32be p.targetProtocolAddress

/-- The layer-3 payload union (`Layer3Packet`). -/
inductive Layer3Packet : Type
  | ipv4 : Ipv4Packet → Layer3Packet
  | arp : ArpPacket → Layer3Packet
  | unknown : List Nat → Layer3Packet
deriving DecidableEq, Repr

/-- `Layer3Packet::onto_writer`: bytes written to the writer plus the
error, if any (the IPv4 encoder can leave partial output behind). -/
def Layer3Packet.ontoWriter : Layer3Packet → List Nat × Option Err
  | .ipv4 p => p.ontoWriter
  | .arp p => (p.ontoWriter, none)
  | .unknown d => (d, none)

/-- An Ethernet frame (`EthFrame`); the MAC addresses are 6-byte lists. -/
structure EthFrame : Type where
  dst : List Nat
  src : List Nat
  ethtype : Nat
  payload : Layer3Packet
deriving DecidableEq, Repr

/-- `EthFrame::from_reader`: two MACs, the big-endian type/length field,
then dispatch on its value.  The trailing frame check sequence is never
read. -/
def EthFrame.fromReader (s : List Nat) : Except Err EthFrame × List Nat :=
  match readExact 6 s with
  | (.error e, s) => (.error e, s)
  | (.ok dst, s) =>
  match readExact 6 s with
  | (.error e, s) => (.error e, s)
  | (.ok src, s) =>
  match readU16 s with
  | (.error e, s) => (.error e, s)
  | (.ok ethtype, s) =>
  if ethtype = 0 then (.ok { dst, src, ethtype, payload := .unknown [] }, s)
  else if ethtype < 1536 then
    match readExact ethtype s with
    | (.error e, s) => (.error e, s)
    | (.ok payload, s) =>
        (.ok { dst, src, ethtype, payload := .unknown payload }, s)
  else if ethtype = 2048 then
    match Ipv4Packet.fromReader s with
    | (.error e, s) => (.error e, s)
    | (.ok p, s) => (.ok { dst, src, ethtype, payload := .ipv4 p }, s)
  else if ethtype = 2054 then
    match ArpPacket.fromReader s with
    | (.error e, s) => (.error e, s)
    | (.ok p, s) => (.ok { dst, src, ethtype, payload := .arp p }, s)
  else (.error (.unsupportedEthertype ethtype), s)

/-- `EthFrame::onto_writer`: serialize into a local buffer, append the
CRC-32 of the serialized bytes, and only then hand everything to the
writer — so a payload encode failure writes nothing. -/
def EthFrame.ontoWriter (f : EthFrame) : Except Err (List Nat) :=
  match f.payload.ontoWriter with
  | (_, some e) => .error e
  | (pbytes, none) =>
    let pre := f.dst ++ f.src ++ u16be f.ethtype ++ pbytes
    .ok (pre ++ u32be (crc32 pre))

/-! ### Arithmetic helpers for the Internet checksum -/

theorem onesAdd_le (a b : Nat) : onesAdd a b ≤ 65535 := by
  unfold onesAdd; omega

theorem foldl_onesAdd_le (l : List Nat) (a : Nat) (h : a ≤ 65535) :
    l.foldl onesAdd a ≤ 65535 := by
  induction l generalizing a with
  | nil => simpa using h
  | cons x xs ih => exact ih _ (onesAdd_le a x)

theorem onesAdd_eq (a b : Nat) (ha : a ≤ 65535) (hb : b ≤ 65535) :
    onesAdd a b = if a + b < 65536 then a + b else a + b - 65535 := by
  unfold onesAdd
  by_cases h : a + b < 65536
  · rw [if_pos h, Nat.mod_eq_of_lt h, Nat.div_eq_of_lt h]
    omega
  · rw [if_neg h]
    have hd : (a + b) / 65536 = 1 := by omega
    have hm : (a + b) % 65536 = a + b - 65536 := by omega
    rw [hd, hm]
    omega

theorem onesAdd_mod (a b : Nat) (ha : a ≤ 65535) (hb : b ≤ 65535) :
    onesAdd a b % 65535 = (a + b) % 65535 := by
  rw [onesAdd_eq a b ha hb]
  by_cases h : a + b < 65536
  · rw [if_pos h]
  · rw [if_neg h]
    omega

theorem foldl_onesAdd_mod (l : List Nat) (a : Nat) (ha : a ≤ 65535)
    (hl : ∀ w ∈ l, w ≤ 65535) :
    l.foldl onesAdd a % 65535 = (a + l.sum) % 65535 := by
  induction l generalizing a with
  | nil => simp
  | cons x xs ih =>
    have hx : x ≤ 65535 := hl x (by simp)
    have hxs : ∀ w ∈ xs, w ≤ 65535 := fun w hw => hl w (by simp [hw])
    have h1 := ih (onesAdd a x) (onesAdd_le a x) hxs
    have h2 := onesAdd_mod a x ha hx
    simp only [List.foldl_cons, List.sum_cons]
    omega

theorem onesAdd_eq_zero (a b : Nat) (ha : a ≤ 65535) (hb : b ≤ 65535)
    (h : onesAdd a b = 0) : a = 0 ∧ b = 0 := by
  unfold onesAdd at h; omega

theorem foldl_onesAdd_eq_zero (l : List Nat) (a : Nat) (ha : a ≤ 65535)
    (hl : ∀ w ∈ l, w ≤ 65535) (h : l.foldl onesAdd a = 0) :
    a = 0 ∧ ∀ w ∈ l, w = 0 := by
  induction l generalizing a with
  | nil => simpa using h
  | cons x xs ih =>
    have hx : x ≤ 65535 := hl x (by simp)
    have hxs : ∀ w ∈ xs, w ≤ 65535 := fun w hw => hl w (by simp [hw])
    obtain ⟨h0, hall⟩ := ih (onesAdd a x) (onesAdd_le a x) hxs h
    obtain ⟨ha0, hx0⟩ := onesAdd_eq_zero a x ha hx h0
    refine ⟨ha0, ?_⟩
    intro w hw
    rcases List.mem_cons.1 hw with rfl | hw
    · exact hx0
    · exact hall w hw

theorem foldl_onesAdd_insert (xs ys : List Nat)
    (hxs : ∀ w ∈ xs, w ≤ 65535) (hys : ∀ w ∈ ys, w ≤ 65535)
    (w0 : Nat) (hw0 : w0 ∈ xs) (hw0ne : w0 ≠ 0) :
    (xs ++ (65535 - (xs ++ ys).foldl onesAdd 0) :: ys).foldl onesAdd 0
      = 65535 := by
  set S := (xs ++ ys).foldl onesAdd 0 with hS
  set T := (xs ++ (65535 - S) :: ys).foldl onesAdd 0 with hT
  have hSb : S ≤ 65535 := foldl_onesAdd_le _ _ (by omega)
  have hall : ∀ w ∈ xs ++ (65535 - S) :: ys, w ≤ 65535 := by
    intro w hw
    rcases List.mem_append.1 hw with h | h
    · exact hxs w h
    · rcases List.mem_cons.1 h with rfl | h
      · omega
      · exact hys w h
  have hTb : T ≤ 65535 := foldl_onesAdd_le _ _ (by omega)
  have hall2 : ∀ w ∈ xs ++ ys, w ≤ 65535 := by
    intro w hw
    rcases List.mem_append.1 hw with h | h
    · exact hxs w h
    · exact hys w h
  have hTmod := foldl_onesAdd_mod (xs ++ (65535 - S) :: ys) 0 (by omega) hall
  have hSmod := foldl_onesAdd_mod (xs ++ ys) 0 (by omega) hall2
  rw [← hS] at hSmod
  rw [← hT] at hTmod
  have hsum1 : (xs ++ (65535 - S) :: ys).sum = xs.sum + ((65535 - S) + ys.sum) := by
    simp
  have hsum2 : (xs ++ ys).sum = xs.sum + ys.sum := by simp
  have hTne : T ≠ 0 := by
    intro h0
    obtain ⟨-, hz⟩ := foldl_onesAdd_eq_zero _ _ (by omega) hall h0
    exact hw0ne (hz w0 (List.mem_append.2 (Or.inl hw0)))
  rw [hsum1] at hTmod
  rw [hsum2] at hSmod
  omega

/-! ### Bit-arithmetic bridges -/

theorem deByte_eq (d e : Nat) (he : e ≤ 3) :
    (d <<< 2) % 256 ||| e = 4 * (d % 64) + e := by
  have h1 : (d <<< 2) % 256 = 2 ^ 2 * (d % 64) := by
    rw [Nat.shiftLeft_eq]
    norm_num [Nat.mul_comm]
    omega
  rw [h1, ← Nat.mul_add_lt_is_or (by omega : e < 2 ^ 2) (d % 64)]

theorem shiftRight2_eq (x : Nat) : x >>> 2 = x / 4 := by
  rw [Nat.shiftRight_eq_div_pow]

theorem and3_eq (x : Nat) : x &&& 3 = x % 4 := by
  have := Nat.and_pow_two_sub_one_eq_mod x 2
  norm_num at this
  exact this

/-! ### Reader helper lemmas -/

theorem readExact_append (l r : List Nat) :
    readExact l.length (l ++ r) = (.ok l, r) := by
  induction l with
  | nil => rfl
  | cons b bs ih => simp [readExact, ih]

theorem readExact_eq_of_length (n : Nat) (l r : List Nat)
    (h : l.length = n) : readExact n (l ++ r) = (.ok l, r) := by
  subst h
  exact readExact_append l r

/-- The 20-byte IPv4 header with the checksum field holding the computed
checksum of the other 18 bytes validates to zero. -/
theorem ipv4_checksum_insert
    (b0 b1 t0 t1 i0 i1 g0 g1 tt pr s0 s1 s2 s3 d0 d1 d2 d3 : Nat)
    (hb0 : b0 ≤ 255) (hb1 : b1 ≤ 255) (ht0 : t0 ≤ 255) (ht1 : t1 ≤ 255)
    (hi0 : i0 ≤ 255) (hi1 : i1 ≤ 255) (hg0 : g0 ≤ 255) (hg1 : g1 ≤ 255)
    (htt : tt ≤ 255) (hpr : pr ≤ 255) (hs0 : s0 ≤ 255) (hs1 : s1 ≤ 255)
    (hs2 : s2 ≤ 255) (hs3 : s3 ≤ 255) (hd0 : d0 ≤ 255) (hd1 : d1 ≤ 255)
    (hd2 : d2 ≤ 255) (hd3 : d3 ≤ 255) (hne : b0 ≠ 0) :
    checksum16 [b0, b1, t0, t1, i0, i1, g0, g1, tt, pr,
      checksum16 [b0, b1, t0, t1, i0, i1, g0, g1, tt, pr,
        s0, s1, s2, s3, d0, d1, d2, d3] / 256 % 256,
      checksum16 [b0, b1, t0, t1, i0, i1, g0, g1, tt, pr,
        s0, s1, s2, s3, d0, d1, d2, d3] % 256,
      s0, s1, s2, s3, d0, d1, d2, d3] = 0 := by
  have key := foldl_onesAdd_insert
      [b0 * 256 + b1, t0 * 256 + t1, i0 * 256 + i1, g0 * 256 + g1,
       tt * 256 + pr]
      [s0 * 256 + s1, s2 * 256 + s3, d0 * 256 + d1, d2 * 256 + d3]
      (by intro w hw; simp only [List.mem_cons, List.not_mem_nil] at hw
          rcases hw with rfl | rfl | rfl | rfl | rfl | h
          · omega
          · omega
          · omega
          · omega
          · omega
          · exact absurd h (by simp))
      (by intro w hw; simp only [List.mem_cons, List.not_mem_nil] at hw
          rcases hw with rfl | rfl | rfl | rfl | h
          · omega
          · omega
          · omega
          · omega
          · exact absurd h (by simp))
      (b0 * 256 + b1) (by simp) (by omega)
  simp only [List.cons_append, List.nil_append] at key
  simp only [checksum16, words16]
  have hC : (65535 -
      List.foldl onesAdd 0 [b0 * 256 + b1, t0 * 256 + t1, i0 * 256 + i1,
        g0 * 256 + g1, tt * 256 + pr, s0 * 256 + s1, s2 * 256 + s3,
        d0 * 256 + d1, d2 * 256 + d3]) / 256 % 256 * 256 +
      (65535 -
      List.foldl onesAdd 0 [b0 * 256 + b1, t0 * 256 + t1, i0 * 256 + i1,
        g0 * 256 + g1, tt * 256 + pr, s0 * 256 + s1, s2 * 256 + s3,
        d0 * 256 + d1, d2 * 256 + d3]) % 256 =
      65535 -
      List.foldl onesAdd 0 [b0 * 256 + b1, t0 * 256 + t1, i0 * 256 + i1,
        g0 * 256 + g1, tt * 256 + pr, s0 * 256 + s1, s2 * 256 + s3,
        d0 * 256 + d1, d2 * 256 + d3] := by
    omega
  rw [hC, key]

/-! ### Core encode/decode round trip for IPv4

For any packet whose fields are in the ranges of the Rust machine types
(ECN already ≤ 3, payload short enough that the total length does not
overflow), encoding succeeds and decoding the output (followed by any
trailing bytes) returns the packet with the DSCP field truncated to its
low 6 bits — the encoder masks `dscp << 2` to 8 bits and never checks
DSCP's range. -/

set_option maxHeartbeats 1000000 in

theorem ipv4_encode_decode (p : Ipv4Packet) (extra : List Nat)
    (he : p.ecn ≤ 3) (hid : p.identification < 65536) (ht : p.ttl < 256)
    (hpr : p.protocol < 256) (hs : p.source < 4294967296)
    (hd : p.destination < 4294967296) (hn : p.data.length ≤ 65515) :
    p.ontoWriter.2 = none ∧
    Ipv4Packet.fromReader (p.ontoWriter.1 ++ extra) =
      (.ok { p with dscp := p.dscp % 64 }, extra) := by
  have hde : (p.dscp <<< 2) % 256 ||| p.ecn = 4 * (p.dscp % 64) + p.ecn :=
    deByte_eq p.dscp p.ecn he
  have hmod : (20 + p.data.length) % 65536 = 20 + p.data.length := by omega
  constructor
  · simp only [Ipv4Packet.ontoWriter]
    rw [if_neg (by omega), if_neg (by omega)]
  · simp only [Ipv4Packet.ontoWriter]
    rw [if_neg (by omega), if_neg (by omega)]
    rw [hde, hmod]
    simp only [u16be, u32be, List.cons_append, List.nil_append,
      List.append_assoc]
    set C := checksum16 [69, 4 * (p.dscp % 64) + p.ecn,
      (20 + p.data.length) / 256 % 256, (20 + p.data.length) % 256,
      p.identification / 256 % 256, p.identification % 256, 64, 0, p.ttl,
      p.protocol, p.source / 16777216 % 256, p.source / 65536 % 256,
      p.source / 256 % 256, p.source % 256, p.destination / 16777216 % 256,
      p.destination / 65536 % 256, p.destination / 256 % 256,
      p.destination % 256] with hC
    have hCle : C ≤ 65535 := by rw [hC]; exact Nat.sub_le _ _
    have h69v : (69 : Nat) >>> 4 = 4 := by decide
    have h69n : (69 : Nat) &&& 15 = 5 := by decide
    have hval_tl : (20 + p.data.length) / 256 % 256 * 256
        + (20 + p.data.length) % 256 = 20 + p.data.length := by omega
    have hval_id : p.identification / 256 % 256 * 256
        + p.identification % 256 = p.identification := by omega
    have hval_ck : C / 256 % 256 * 256 + C % 256 = C := by omega
    have hval_src : p.source / 16777216 % 256 * 16777216
        + p.source / 65536 % 256 * 65536 + p.source / 256 % 256 * 256
        + p.source % 256 = p.source := by omega
    have hval_dst : p.destination / 16777216 % 256 * 16777216
        + p.destination / 65536 % 256 * 65536
        + p.destination / 256 % 256 * 256
        + p.destination % 256 = p.destination := by omega
    have htlge : ¬(20 + p.data.length < 20) := by omega
    have hdscp : (4 * (p.dscp % 64) + p.ecn) >>> 2 = p.dscp % 64 := by
      rw [shiftRight2_eq]; omega
    have hecn : (4 * (p.dscp % 64) + p.ecn) &&& 3 = p.ecn := by
      rw [and3_eq]; omega
    have hsub : 20 + p.data.length - 20 = p.data.length := by omega
    have hcz : checksum16 [69, 4 * (p.dscp % 64) + p.ecn,
        (20 + p.data.length) / 256 % 256, (20 + p.data.length) % 256,
        p.identification / 256 % 256, p.identification % 256, 64, 0,
        p.ttl, p.protocol, C / 256 % 256, C % 256,
        p.source / 16777216 % 256, p.source / 65536 % 256,
        p.source / 256 % 256, p.source % 256,
        p.destination / 16777216 % 256, p.destination / 65536 % 256,
        p.destination / 256 % 256, p.destination % 256] = 0 := by
      rw [hC]
      exact ipv4_checksum_insert 69 (4 * (p.dscp % 64) + p.ecn)
        ((20 + p.data.length) / 256 % 256) ((20 + p.data.length) % 256)
        (p.identification / 256 % 256) (p.identification % 256) 64 0
        p.ttl p.protocol
        (p.source / 16777216 % 256) (p.source / 65536 % 256)
        (p.source / 256 % 256) (p.source % 256)
        (p.destination / 16777216 % 256) (p.destination / 65536 % 256)
        (p.destination / 256 % 256) (p.destination % 256)
        (by omega) (by omega) (by omega) (by omega) (by omega) (by omega)
        (by omega) (by omega) (by omega) (by omega) (by omega) (by omega)
        (by omega) (by omega) (by omega) (by omega) (by omega) (by omega)
        (by omega)
    simp only [Ipv4Packet.fromReader, readU8, readU16, readU32, readUpTo,
      ihlValue, u16be, u32be, h69v, h69n, hval_tl, hval_id, hval_ck,
      hval_src, hval_dst, htlge, hdscp, hecn, hsub, hcz,
      List.take_left, List.drop_left]
    simp [htlge, hcz, hdscp, hecn, hsub, hval_ck, hval_tl,
      List.take_left, List.drop_left]

/-- C1: for every valid `Ipv4Packet` (6-bit dscp, ecn ≤ 3, payload length
≤ 65515, remaining fields in their machine ranges; the encoder fixes the
version nibble to 4), decoding the encoded bytes returns the packet
unchanged with the whole stream consumed, and re-encoding the decoded
packet is byte-identical to the first encoding. -/
theorem ipv4_roundtrip (p : Ipv4Packet) (hdscp : p.dscp < 64)
    (he : p.ecn ≤ 3) (hid : p.identification < 65536) (ht : p.ttl < 256)
    (hpr : p.protocol < 256) (hs : p.source < 4294967296)
    (hd : p.destination < 4294967296) (hn : p.data.length ≤ 65515) :
    p.ontoWriter.2 = none ∧
    Ipv4Packet.fromReader p.ontoWriter.1 = (.ok p, []) ∧
    ∀ q : Ipv4Packet, Ipv4Packet.fromReader p.ontoWriter.1 = (.ok q, []) →
      q.ontoWriter.1 = p.ontoWriter.1 := by
  obtain ⟨h1, h2⟩ := ipv4_encode_decode p [] he hid ht hpr hs hd hn
  rw [List.append_nil] at h2
  have hmask : p.dscp % 64 = p.dscp := Nat.mod_eq_of_lt hdscp
  have hp : { p with dscp := p.dscp % 64 } = p := by rw [hmask]
  rw [hp] at h2
  refine ⟨h1, h2, ?_⟩
  intro q hq
  rw [h2] at hq
  have hpq : p = q := by
    have := congrArg Prod.fst hq
    simpa using this
  rw [hpq]

/-- C1 witness: a concrete valid packet round-trips. -/
theorem ipv4_roundtrip_witness :
    (let p : Ipv4Packet :=
      { dscp := 1, ecn := 2, identification := 3, ttl := 4, protocol := 5,
        source := 6, destination := 7, data := [8, 9] }
     p.dscp < 64 ∧ p.ecn ≤ 3 ∧ p.identification < 65536 ∧ p.ttl < 256 ∧
     p.protocol < 256 ∧ p.source < 4294967296 ∧
     p.destination < 4294967296 ∧ p.data.length ≤ 65515 ∧
     p.ontoWriter.2 = none ∧
     Ipv4Packet.fromReader p.ontoWriter.1 = (.ok p, [])) :=
  ⟨by decide, by decide, by decide, by decide, by decide, by decide,
   by decide, by decide,
   (ipv4_roundtrip _ (by decide) (by decide) (by decide) (by decide)
     (by decide) (by decide) (by decide) (by decide)).1,
   (ipv4_roundtrip _ (by decide) (by decide) (by decide) (by decide)
     (by decide) (by decide) (by decide) (by decide)).2.1⟩

/-- C10: for any packet with ECN out of range, encoding fails with the
InvalidField kind, but only after byte 0x45 has reached the writer: the
failed encode leaves exactly that one byte of partial output. -/
theorem ipv4_encode_partial_on_bad_ecn (p : Ipv4Packet) (h : 3 < p.ecn) :
    p.ontoWriter = ([69], some .invalidField) := by
  simp [Ipv4Packet.ontoWriter, h]

/-- C10 witness. -/
theorem ipv4_encode_partial_on_bad_ecn_witness :
    (3 : Nat) < 4 ∧ Ipv4Packet.ontoWriter
      { dscp := 0, ecn := 4, identification := 0, ttl := 0, protocol := 0,
        source := 0, destination := 0, data := [] }
      = ([69], some .invalidField) :=
  ⟨by decide, ipv4_encode_partial_on_bad_ecn _ (by decide)⟩

/-- The C2 failing input: ecn in range, payload of 65516 bytes, so the
total length 20 + 65516 = 65536 does not fit in 16 bits. -/
def totalLengthOverflowPacket : Ipv4Packet :=
  { dscp := 0, ecn := 0, identification := 0, ttl := 0, protocol := 0,
    source := 0, destination := 0, data := List.replicate 65516 0 }

/-- C2: contrary to the claim, a payload of 65516 bytes (> 65515) does
not make encoding fail: `u16::try_from(65516)` succeeds and the
`20u16 + 65516u16` addition overflows (wrapping to 0 in release builds,
panicking in debug builds), so the encoder reports no error and emits a
wrapped total-length field of 0 (output bytes 2..3 are [0, 0]). -/
theorem ipv4_total_length_wraps_general (p : Ipv4Packet)
    (hecn : p.ecn ≤ 3) (hlen : p.data.length = 65516) :
    p.ontoWriter.2 = none ∧
    p.ontoWriter.1.take 4 = [69, (p.dscp <<< 2) % 256 ||| p.ecn, 0, 0] := by
  constructor
  · simp only [Ipv4Packet.ontoWriter]
    rw [if_neg (by omega), if_neg (by omega)]
  · simp only [Ipv4Packet.ontoWriter]
    rw [if_neg (by omega), if_neg (by omega)]
    simp only [hlen]
    norm_num [u16be]

theorem ipv4_total_length_wraps :
    totalLengthOverflowPacket.data.length = 65516 ∧
    totalLengthOverflowPacket.ontoWriter.2 = none ∧
    totalLengthOverflowPacket.ontoWriter.1.take 4 = [69, 0, 0, 0] := by
  have hlen : totalLengthOverflowPacket.data.length = 65516 :=
    List.length_replicate 65516 0
  have hecn : totalLengthOverflowPacket.ecn ≤ 3 := by decide
  obtain ⟨h1, h2⟩ := ipv4_total_length_wraps_general
    totalLengthOverflowPacket hecn hlen
  refine ⟨hlen, h1, ?_⟩
  rw [h2]
  have hd0 : totalLengthOverflowPacket.dscp = 0 := rfl
  have he0 : totalLengthOverflowPacket.ecn = 0 := rfl
  rw [hd0, he0]
  decide

/-- C6: the IHL nibble is interpreted as: 0 means the 20-byte minimum
header, 1..4 makes decode fail immediately with the MalformedIpv4 kind,
and any value ≥ 5 yields a header length of 4·IHL bytes. -/
theorem ipv4_ihl_semantics :
    (∀ i rest, 1 ≤ i → i ≤ 4 →
      Ipv4Packet.fromReader ((64 + i) :: rest)
        = (.error .malformedIpv4, rest)) ∧
    ihlValue 0 = .ok 20 ∧
    (∀ i, 1 ≤ i → i ≤ 4 → ihlValue i = .error .malformedIpv4) ∧
    (∀ i, 5 ≤ i → ihlValue i = .ok (4 * i)) := by
  refine ⟨?_, rfl, ?_, ?_⟩
  · intro i rest h1 h4
    have hv : (64 + i) >>> 4 = 4 := by
      rw [Nat.shiftRight_eq_div_pow]; omega
    have hn : (64 + i) &&& 15 = i := by
      have h := Nat.and_pow_two_sub_one_eq_mod (64 + i) 4
      norm_num at h
      omega
    simp only [Ipv4Packet.fromReader, readU8, hv, hn, ihlValue]
    rw [if_neg (by omega : ¬ i = 0), if_pos (by omega : i < 5)]
    simp
  · intro i h1 h4
    simp only [ihlValue]
    rw [if_neg (by omega : ¬ i = 0), if_pos (by omega : i < 5)]
  · intro i h5
    simp only [ihlValue]
    rw [if_neg (by omega : ¬ i = 0), if_neg (by omega : ¬ i < 5)]

/-- C6 witness. -/
theorem ipv4_ihl_semantics_witness :
    (1 : Nat) ≤ 1 ∧ (1 : Nat) ≤ 4 ∧ (5 : Nat) ≤ 6 ∧
    Ipv4Packet.fromReader [65] = (.error .malformedIpv4, []) ∧
    ihlValue 1 = .error .malformedIpv4 ∧ ihlValue 6 = .ok 24 :=
  ⟨by decide, by decide, by decide,
   ipv4_ihl_semantics.1 1 [] (by decide) (by decide),
   ipv4_ihl_semantics.2.2.1 1 (by decide) (by decide),
   ipv4_ihl_semantics.2.2.2 6 (by decide)⟩

/-- Encoding fails (InvalidField, from the failing `u16::try_from`) once
the payload length itself no longer fits in 16 bits. -/
theorem ipv4_encode_fails_on_huge_payload (p : Ipv4Packet)
    (hecn : p.ecn ≤ 3) (hlen : 65536 ≤ p.data.length) :
    p.ontoWriter.2 = some .invalidField := by
  simp only [Ipv4Packet.ontoWriter]
  rw [if_neg (by omega), if_pos hlen]

/-- The C9 counterexample input: dscp 64 > 63 and ecn 0, but a payload of
65536 bytes. -/
def dscpOverflowPacket : Ipv4Packet :=
  { dscp := 64, ecn := 0, identification := 0, ttl := 0, protocol := 0,
    source := 0, destination := 0, data := List.replicate 65536 0 }

/-- C9 counterexample: a packet with dscp > 63 and ecn ≤ 3 whose encoding
fails (payload too long for `u16::try_from`), so "for every Ipv4Packet
with dscp > 63 and ecn ≤ 3, encoding succeeds" is false as stated. -/
theorem ipv4_dscp_claim_fails :
    63 < dscpOverflowPacket.dscp ∧ dscpOverflowPacket.ecn ≤ 3 ∧
    dscpOverflowPacket.ontoWriter.2 = some .invalidField :=
  ⟨by decide, by decide,
   ipv4_encode_fails_on_huge_payload _ (by decide)
     (le_of_eq (List.length_replicate 65536 0).symm)⟩

/-- C9 (amended with payload length ≤ 65515, without which encoding does
not succeed): the encoder never validates DSCP — the emitted DSCP/ECN
byte is `(dscp << 2) | ecn` truncated to 8 bits, and the round trip
returns the packet with dscp reduced mod 64 instead of failing. -/
theorem ipv4_dscp_not_validated (p : Ipv4Packet) (hdscp : 63 < p.dscp)
    (he : p.ecn ≤ 3) (hid : p.identification < 65536) (ht : p.ttl < 256)
    (hpr : p.protocol < 256) (hs : p.source < 4294967296)
    (hd : p.destination < 4294967296) (hn : p.data.length ≤ 65515) :
    p.ontoWriter.2 = none ∧
    p.ontoWriter.1.take 2 = [69, (p.dscp <<< 2) % 256 ||| p.ecn] ∧
    Ipv4Packet.fromReader p.ontoWriter.1 =
      (.ok { p with dscp := p.dscp % 64 }, []) ∧
    p.dscp % 64 ≠ p.dscp := by
  obtain ⟨h1, h2⟩ := ipv4_encode_decode p [] he hid ht hpr hs hd hn
  rw [List.append_nil] at h2
  refine ⟨h1, ?_, h2, by omega⟩
  simp only [Ipv4Packet.ontoWriter]
  rw [if_neg (by omega), if_neg (by omega)]
  simp [u16be]

/-- C9 witness. -/
theorem ipv4_dscp_not_validated_witness :
    (let p : Ipv4Packet :=
      { dscp := 100, ecn := 1, identification := 2, ttl := 3,
        protocol := 4, source := 5, destination := 6, data := [7] }
     63 < p.dscp ∧ p.ecn ≤ 3 ∧ p.data.length ≤ 65515 ∧
     Ipv4Packet.fromReader p.ontoWriter.1 =
       (.ok { p with dscp := p.dscp % 64 }, []) ∧ p.dscp % 64 ≠ p.dscp) :=
  ⟨by decide, by decide, by decide,
   (ipv4_dscp_not_validated _ (by decide) (by decide) (by decide)
     (by decide) (by decide) (by decide) (by decide) (by decide)).2.2.1,
   (ipv4_dscp_not_validated _ (by decide) (by decide) (by decide)
     (by decide) (by decide) (by decide) (by decide) (by decide)).2.2.2⟩

/-- C7: a version-4 header with IHL nibble i ≥ 6 (header length 4·i > 20)
whose earlier checks pass is rejected with MalformedIpv4, but only after
exactly 4·i − 20 option bytes have been drained from the stream: the
returned stream position sits right past the options. -/
theorem ipv4_options_drained (i : Nat) (h6 : 6 ≤ i) (h15 : i ≤ 15)
    (b1 t0 t1 i0 i1 tt pr c0 c1 s0 s1 s2 s3 d0 d1 d2 d3 : Nat)
    (opts rest : List Nat) (htl : 4 * i ≤ t0 * 256 + t1)
    (hopts : opts.length = 4 * i - 20) :
    Ipv4Packet.fromReader ((64 + i) :: b1 :: t0 :: t1 :: i0 :: i1 :: 64 ::
        0 :: tt :: pr :: c0 :: c1 :: s0 :: s1 :: s2 :: s3 :: d0 :: d1 ::
        d2 :: d3 :: (opts ++ rest)) = (.error .malformedIpv4, rest) := by
  have hv : (64 + i) >>> 4 = 4 := by
    rw [Nat.shiftRight_eq_div_pow]; omega
  have hn : (64 + i) &&& 15 = i := by
    have h := Nat.and_pow_two_sub_one_eq_mod (64 + i) 4
    norm_num at h
    omega
  have hre := readExact_eq_of_length (4 * i - 20) opts rest hopts
  have hne0 : ¬ i = 0 := by omega
  have hlt5 : ¬ i < 5 := by omega
  have htlok : ¬ (t0 * 256 + t1 < 4 * i) := by omega
  have hgt : 20 < 4 * i := by omega
  simp only [Ipv4Packet.fromReader, readU8, readU16, readU32, hv, hn,
    ihlValue]
  simp [hne0, hlt5, htlok, hgt, hre]

/-- C7 witness: IHL 6, 4 option bytes drained, then rejection. -/
theorem ipv4_options_drained_witness :
    (6 : Nat) ≤ 6 ∧ (6 : Nat) ≤ 15 ∧ 4 * 6 ≤ (0 : Nat) * 256 + 30 ∧
    [1, 2, 3, 4].length = 4 * 6 - 20 ∧
    Ipv4Packet.fromReader (70 :: 0 :: 0 :: 30 :: 0 :: 0 :: 64 :: 0 :: 0 ::
        0 :: 0 :: 0 :: 0 :: 0 :: 0 :: 0 :: 0 :: 0 :: 0 :: 0 ::
        ([1, 2, 3, 4] ++ [5, 6])) = (.error .malformedIpv4, [5, 6]) :=
  ⟨by decide, by decide, by decide, by decide,
   ipv4_options_drained 6 (by decide) (by decide) 0 0 30 0 0 0 0 0 0 0 0 0
     0 0 0 0 0 [1, 2, 3, 4] [5, 6] (by decide) (by decide)⟩

set_option maxHeartbeats 2000000 in
/-- C5: whenever IPv4 decode succeeds on a byte stream, the Internet
checksum over the 20 header bytes exactly as they appeared on the wire is
zero; the decoder rejects any header whose accumulated checksum is
nonzero. -/
theorem ipv4_decode_checksum_zero (input : List Nat) (p : Ipv4Packet) (rest : List Nat)
    (hb : ∀ b ∈ input, b < 256)
    (h : Ipv4Packet.fromReader input = (.ok p, rest)) :
    checksum16 (input.take 20) = 0 := by
  rcases input with _ | ⟨b0, _ | ⟨b1, _ | ⟨b2, _ | ⟨b3, _ | ⟨b4, _ | ⟨b5,
    _ | ⟨b6, _ | ⟨b7, _ | ⟨b8, _ | ⟨b9, _ | ⟨b10, _ | ⟨b11, _ | ⟨b12,
    _ | ⟨b13, _ | ⟨b14, _ | ⟨b15, _ | ⟨b16, _ | ⟨b17, _ | ⟨b18,
    _ | ⟨b19, tail⟩⟩⟩⟩⟩⟩⟩⟩⟩⟩⟩⟩⟩⟩⟩⟩⟩⟩⟩⟩ <;>
    simp only [Ipv4Packet.fromReader, readU8, readU16, readU32, readUpTo,
      ihlValue, u16be, u32be] at h <;>
    (repeat' split at h) <;>
    try simp at h
  all_goals {
    have hb2 : b2 < 256 := hb _ (by simp)
    have hb3 : b3 < 256 := hb _ (by simp)
    have hb4 : b4 < 256 := hb _ (by simp)
    have hb5 : b5 < 256 := hb _ (by simp)
    have hb6 : b6 < 256 := hb _ (by simp)
    have hb7 : b7 < 256 := hb _ (by simp)
    have hb10 : b10 < 256 := hb _ (by simp)
    have hb11 : b11 < 256 := hb _ (by simp)
    have hb12 : b12 < 256 := hb _ (by simp)
    have hb13 : b13 < 256 := hb _ (by simp)
    have hb14 : b14 < 256 := hb _ (by simp)
    have hb15 : b15 < 256 := hb _ (by simp)
    have hb16 : b16 < 256 := hb _ (by simp)
    have hb17 : b17 < 256 := hb _ (by simp)
    have hb18 : b18 < 256 := hb _ (by simp)
    have hb19 : b19 < 256 := hb _ (by simp)
    have e1 : (b2 * 256 + b3) / 256 % 256 = b2 := by omega
    have e2 : (b2 * 256 + b3) % 256 = b3 := by omega
    have e3 : (b4 * 256 + b5) / 256 % 256 = b4 := by omega
    have e4 : (b4 * 256 + b5) % 256 = b5 := by omega
    have e5 : (b6 * 256 + b7) / 256 % 256 = b6 := by omega
    have e6 : (b6 * 256 + b7) % 256 = b7 := by omega
    have e7 : (b10 * 256 + b11) / 256 % 256 = b10 := by omega
    have e8 : (b10 * 256 + b11) % 256 = b11 := by omega
    have e9 : (b12 * 16777216 + b13 * 65536 + b14 * 256 + b15) / 16777216
        % 256 = b12 := by omega
    have e10 : (b12 * 16777216 + b13 * 65536 + b14 * 256 + b15) / 65536
        % 256 = b13 := by omega
    have e11 : (b12 * 16777216 + b13 * 65536 + b14 * 256 + b15) / 256
        % 256 = b14 := by omega
    have e12 : (b12 * 16777216 + b13 * 65536 + b14 * 256 + b15) % 256
        = b15 := by omega
    have e13 : (b16 * 16777216 + b17 * 65536 + b18 * 256 + b19) / 16777216
        % 256 = b16 := by omega
    have e14 : (b16 * 16777216 + b17 * 65536 + b18 * 256 + b19) / 65536
        % 256 = b17 := by omega
    have e15 : (b16 * 16777216 + b17 * 65536 + b18 * 256 + b19) / 256
        % 256 = b18 := by omega
    have e16 : (b16 * 16777216 + b17 * 65536 + b18 * 256 + b19) % 256
        = b19 := by omega
    simp_all [List.take]
  }

/-- C5 witness: a concrete header that decodes successfully and whose
first 20 bytes checksum to zero. -/
theorem ipv4_decode_checksum_zero_witness :
    (∀ b ∈ [69, 0, 0, 20, 0, 0, 64, 0, 1, 0, 121, 235, 0, 0, 0, 0, 0, 0,
      0, 0], b < 256) ∧
    Ipv4Packet.fromReader [69, 0, 0, 20, 0, 0, 64, 0, 1, 0, 121, 235, 0,
      0, 0, 0, 0, 0, 0, 0] =
      (.ok { dscp := 0, ecn := 0, identification := 0, ttl := 1,
             protocol := 0, source := 0, destination := 0, data := [] },
       []) ∧
    checksum16 (List.take 20 [69, 0, 0, 20, 0, 0, 64, 0, 1, 0, 121, 235,
      0, 0, 0, 0, 0, 0, 0, 0]) = 0 :=
  ⟨by decide, by rfl,
   ipv4_decode_checksum_zero
     [69, 0, 0, 20, 0, 0, 64, 0, 1, 0, 121, 235, 0, 0, 0, 0, 0, 0, 0, 0]
     { dscp := 0, ecn := 0, identification := 0, ttl := 1, protocol := 0,
       source := 0, destination := 0, data := [] } []
     (by decide) (by rfl)⟩

/-- Core ARP round trip: decoding an encoded ARP packet (with any
trailing bytes) returns the packet and leaves exactly the trailing bytes
unconsumed. -/
theorem arp_encode_decode (p : ArpPacket) (extra : List Nat)
    (h1 : p.senderHwAddress.length = 6) (h2 : p.targetHwAddress.length = 6)
    (h3 : p.senderProtocolAddress < 4294967296)
    (h4 : p.targetProtocolAddress < 4294967296) :
    ArpPacket.fromReader (p.ontoWriter ++ extra) = (.ok p, extra) := by
  obtain ⟨op, shw, spa, thw, tpa⟩ := p
  simp only at h1 h2 h3 h4
  have espa : spa / 16777216 % 256 * 16777216 + spa / 65536 % 256 * 65536
      + spa / 256 % 256 * 256 + spa % 256 = spa := by omega
  have etpa : tpa / 16777216 % 256 * 16777216 + tpa / 65536 % 256 * 65536
      + tpa / 256 % 256 * 256 + tpa % 256 = tpa := by omega
  cases op <;>
    simp [ArpPacket.ontoWriter, ArpOperation.toU16, ArpPacket.fromReader,
      readU8, readU16, readU32, u16be, u32be, readExact_eq_of_length,
      h1, h2, espa, etpa]

/-- C4: the ARP encoder always emits the four fixed constants (hardware
type 1, protocol type 0x0800, hardware length 6, protocol length 4),
then the operation code, then the four address fields in that order, and
decoding the encoding yields the packet back exactly. -/
theorem arp_roundtrip (p : ArpPacket)
    (h1 : p.senderHwAddress.length = 6) (h2 : p.targetHwAddress.length = 6)
    (h3 : p.senderProtocolAddress < 4294967296)
    (h4 : p.targetProtocolAddress < 4294967296) :
    p.ontoWriter = [0, 1, 8, 0, 6, 4] ++ u16be p.operation.toU16
      ++ p.senderHwAddress ++ u32be p.senderProtocolAddress
      ++ p.targetHwAddress ++ u32be p.targetProtocolAddress ∧
    ArpPacket.fromReader p.ontoWriter = (.ok p, []) := by
  constructor
  · simp [ArpPacket.ontoWriter, u16be]
  · have h := arp_encode_decode p [] h1 h2 h3 h4
    rwa [List.append_nil] at h

/-- C4 witness. -/
theorem arp_roundtrip_witness :
    (let p : ArpPacket :=
      { operation := .request, senderHwAddress := [1, 2, 3, 4, 5, 6],
        senderProtocolAddress := 7,
        targetHwAddress := [8, 9, 10, 11, 12, 13],
        targetProtocolAddress := 14 }
     p.senderHwAddress.length = 6 ∧ p.targetHwAddress.length = 6 ∧
     p.senderProtocolAddress < 4294967296 ∧
     p.targetProtocolAddress < 4294967296 ∧
     ArpPacket.fromReader p.ontoWriter = (.ok p, [])) :=
  ⟨by decide, by decide, by decide, by decide,
   (arp_roundtrip _ (by decide) (by decide) (by decide) (by decide)).2⟩

/-- Field ranges of a well-formed IPv4 packet: the Rust machine-type
ranges plus the two conditions (ECN fits 2 bits, payload short enough)
under which encoding succeeds, and a 6-bit DSCP. -/
def Ipv4Packet.Valid (p : Ipv4Packet) : Prop :=
  p.dscp < 64 ∧ p.ecn ≤ 3 ∧ p.identification < 65536 ∧ p.ttl < 256 ∧
  p.protocol < 256 ∧ p.source < 4294967296 ∧
  p.destination < 4294967296 ∧ p.data.length ≤ 65515

instance (p : Ipv4Packet) : Decidable p.Valid :=
  inferInstanceAs (Decidable (p.dscp < 64 ∧ p.ecn ≤ 3 ∧
    p.identification < 65536 ∧ p.ttl < 256 ∧ p.protocol < 256 ∧
    p.source < 4294967296 ∧ p.destination < 4294967296 ∧
    p.data.length ≤ 65515))

/-- Field ranges of a well-formed ARP packet: 6-byte hardware addresses
and u32 protocol addresses. -/
def ArpPacket.Valid (p : ArpPacket) : Prop :=
  p.senderHwAddress.length = 6 ∧ p.targetHwAddress.length = 6 ∧
  p.senderProtocolAddress < 4294967296 ∧
  p.targetProtocolAddress < 4294967296

instance (p : ArpPacket) : Decidable p.Valid :=
  inferInstanceAs (Decidable (p.senderHwAddress.length = 6 ∧
    p.targetHwAddress.length = 6 ∧ p.senderProtocolAddress < 4294967296 ∧
    p.targetProtocolAddress < 4294967296))

/-- A frame whose type/length field is consistent with its payload
variant: 0 with an empty opaque payload, a length value 1..1535 with an
opaque payload of exactly that length, 0x0800 with a valid IPv4 packet,
or 0x0806 with a valid ARP packet; MAC fields are 6 bytes. -/
def EthFrame.Consistent (f : EthFrame) : Prop :=
  f.dst.length = 6 ∧ f.src.length = 6 ∧
  match f.payload with
  | .unknown d => (f.ethtype = 0 ∧ d = []) ∨
      (1 ≤ f.ethtype ∧ f.ethtype ≤ 1535 ∧ d.length = f.ethtype)
  | .ipv4 p => f.ethtype = 2048 ∧ p.Valid
  | .arp p => f.ethtype = 2054 ∧ p.Valid

instance : (f : EthFrame) → Decidable f.Consistent
  | ⟨d, s, t, .ipv4 p⟩ =>
      inferInstanceAs (Decidable (d.length = 6 ∧ s.length = 6 ∧
        (t = 2048 ∧ p.Valid)))
  | ⟨d, s, t, .arp p⟩ =>
      inferInstanceAs (Decidable (d.length = 6 ∧ s.length = 6 ∧
        (t = 2054 ∧ p.Valid)))
  | ⟨d, s, t, .unknown dd⟩ =>
      inferInstanceAs (Decidable (d.length = 6 ∧ s.length = 6 ∧
        ((t = 0 ∧ dd = []) ∨ (1 ≤ t ∧ t ≤ 1535 ∧ dd.length = t))))

/-- C3 counterexample: a frame whose type/length field is the IPv6
ethertype 0x86dd does not decode to an opaque payload — decoding fails
with the UnsupportedEthertype kind (there is no IPv6 arm in the
dispatch). -/
theorem eth_ipv6_claim_fails :
    EthFrame.fromReader [0, 0, 0, 0, 0, 0, 0, 0, 0, 0, 0, 0, 134, 221]
      = (.error (.unsupportedEthertype 34525), []) := by rfl

/-- C3 (amended): decoding an Ethernet frame whose 16-bit type/length
field is 0x86dd always fails with UnsupportedEthertype(0x86dd); the IPv6
ethertype constant is declared in the source but never dispatched, so
IPv6 payloads are not carried. -/
theorem eth_ipv6_rejected (dst src rest : List Nat)
    (h1 : dst.length = 6) (h2 : src.length = 6) :
    EthFrame.fromReader (dst ++ src ++ 134 :: 221 :: rest)
      = (.error (.unsupportedEthertype 34525), rest) := by
  simp [EthFrame.fromReader, readU16, readExact_eq_of_length, h1, h2]

/-- C3 witness for the amended statement. -/
theorem eth_ipv6_rejected_witness :
    ([9, 9, 9, 9, 9, 9] : List Nat).length = 6 ∧
    ([8, 8, 8, 8, 8, 8] : List Nat).length = 6 ∧
    EthFrame.fromReader ([9, 9, 9, 9, 9, 9] ++ [8, 8, 8, 8, 8, 8]
        ++ 134 :: 221 :: [7])
      = (.error (.unsupportedEthertype 34525), [7]) :=
  ⟨by decide, by decide,
   eth_ipv6_rejected [9, 9, 9, 9, 9, 9] [8, 8, 8, 8, 8, 8] [7]
     (by decide) (by decide)⟩

/-- The C8 counterexample frame: type/length field 0 paired with a
nonempty opaque payload.  Encoding succeeds, but decoding consumes only
the 14 header bytes, leaving the 3 payload bytes plus the 4 CRC bytes
(7 bytes, not 4) unconsumed. -/
def inconsistentFrame : EthFrame :=
  { dst := [0, 0, 0, 0, 0, 0], src := [0, 0, 0, 0, 0, 0], ethtype := 0,
    payload := .unknown [1, 2, 3] }

set_option maxRecDepth 10000 in
/-- C8 counterexample: for `inconsistentFrame`, decoding its encoding
leaves 7 bytes unconsumed, so "for every frame f, decoding encode(f)
consumes all bytes except the final 4 CRC bytes" is false as stated. -/
theorem eth_fcs_claim_fails :
    EthFrame.ontoWriter inconsistentFrame =
      .ok [0, 0, 0, 0, 0, 0, 0, 0, 0, 0, 0, 0, 0, 0, 1, 2, 3,
           99, 18, 168, 178] ∧
    (EthFrame.fromReader [0, 0, 0, 0, 0, 0, 0, 0, 0, 0, 0, 0, 0, 0, 1, 2,
        3, 99, 18, 168, 178]).2 = [1, 2, 3, 99, 18, 168, 178] ∧
    ([1, 2, 3, 99, 18, 168, 178] : List Nat).length ≠ 4 :=
  ⟨by rfl, by rfl, by decide⟩

set_option maxHeartbeats 2000000 in
/-- C8 (amended: restricted to frames whose type/length field is
consistent with their payload variant, without which decode can stop
short of the trailer): the encoder serializes destination, source, the
big-endian type/length field, the payload bytes, and appends the CRC-32
of exactly those serialized bytes as a trailing 4-byte big-endian field;
decode never reads those trailing 4 bytes — it returns the frame with
exactly the final 4 CRC bytes left unconsumed. -/
theorem eth_roundtrip_consistent (f : EthFrame) (bytes : List Nat)
    (hc : f.Consistent) (henc : f.ontoWriter = .ok bytes) :
    EthFrame.fromReader bytes = (.ok f, bytes.drop (bytes.length - 4)) ∧
    (bytes.drop (bytes.length - 4)).length = 4 ∧
    bytes = bytes.take (bytes.length - 4)
      ++ u32be (crc32 (bytes.take (bytes.length - 4))) := by
  obtain ⟨d, s, t, pl⟩ := f
  obtain ⟨hd, hs, hpl⟩ := hc
  simp only at hd hs hpl ⊢
  -- name the payload bytes and show the encoder error is absent
  cases pl with
  | unknown dd =>
    simp only [EthFrame.ontoWriter, Layer3Packet.ontoWriter] at henc
    set pre := d ++ s ++ u16be t ++ dd with hpre
    have hbytes : bytes = pre ++ u32be (crc32 pre) := by
      simpa using henc.symm
    subst hbytes
    have hsplit : (pre ++ u32be (crc32 pre)).length - 4 = pre.length := by
      simp [u32be]
    rw [hsplit, List.take_left, List.drop_left]
    refine ⟨?_, by simp [u32be], rfl⟩
    rcases hpl with ⟨rfl, rfl⟩ | ⟨h1, h2, h3⟩
    · simp [EthFrame.fromReader, hpre, readU16, u16be,
        readExact_eq_of_length, hd, hs]
    · have hvt : t / 256 % 256 * 256 + t % 256 = t := by omega
      have hne0 : ¬ (t = 0) := by omega
      have hlt : t < 1536 := by omega
      simp [EthFrame.fromReader, hpre, readU16, u16be,
        readExact_eq_of_length, hd, hs, hvt, hne0, hlt, h3]
  | arp p =>
    obtain ⟨rfl, hv⟩ := hpl
    obtain ⟨hv1, hv2, hv3, hv4⟩ := hv
    simp only [EthFrame.ontoWriter, Layer3Packet.ontoWriter] at henc
    set pre := d ++ s ++ u16be 2054 ++ p.ontoWriter with hpre
    have hbytes : bytes = pre ++ u32be (crc32 pre) := by
      simpa using henc.symm
    subst hbytes
    have hsplit : (pre ++ u32be (crc32 pre)).length - 4 = pre.length := by
      simp [u32be]
    rw [hsplit, List.take_left, List.drop_left]
    refine ⟨?_, by simp [u32be], rfl⟩
    have harp := arp_encode_decode p (u32be (crc32 pre)) hv1 hv2 hv3 hv4
    generalize hg : u32be (crc32 pre) = crcb
    rw [hg] at harp
    simp [EthFrame.fromReader, hpre, readU16, u16be,
      readExact_eq_of_length, hd, hs, harp]
  | ipv4 p =>
    obtain ⟨rfl, hv⟩ := hpl
    obtain ⟨hv1, hv2, hv3, hv4, hv5, hv6, hv7, hv8⟩ := hv
    rcases hpw : p.ontoWriter with ⟨pb, err⟩
    have hip := ipv4_encode_decode p [] hv2 hv3 hv4 hv5 hv6 hv7 hv8
    have herr : err = none := by
      have := hip.1
      rw [hpw] at this
      exact this
    subst herr
    simp only [EthFrame.ontoWriter, Layer3Packet.ontoWriter, hpw] at henc
    set pre := d ++ s ++ u16be 2048 ++ pb with hpre
    have hbytes : bytes = pre ++ u32be (crc32 pre) := by
      simpa using henc.symm
    subst hbytes
    have hsplit : (pre ++ u32be (crc32 pre)).length - 4 = pre.length := by
      simp [u32be]
    rw [hsplit, List.take_left, List.drop_left]
    refine ⟨?_, by simp [u32be], rfl⟩
    have hip2 := (ipv4_encode_decode p (u32be (crc32 pre)) hv2 hv3 hv4 hv5
      hv6 hv7 hv8).2
    rw [hpw] at hip2
    have hmask : p.dscp % 64 = p.dscp := Nat.mod_eq_of_lt hv1
    have hpeq : { p with dscp := p.dscp % 64 } = p := by rw [hmask]
    rw [hpeq] at hip2
    generalize hg : u32be (crc32 pre) = crcb
    rw [hg] at hip2
    have hip3 : Ipv4Packet.fromReader (pb ++ crcb) = (.ok p, crcb) := by
      simpa using hip2
    simp [EthFrame.fromReader, hpre, readU16, u16be,
      readExact_eq_of_length, hd, hs, hip3]

set_option maxRecDepth 10000 in
/-- C8 witness: a concrete consistent frame. -/
theorem eth_roundtrip_consistent_witness :
    (let f : EthFrame :=
      { dst := [1, 2, 3, 4, 5, 6], src := [7, 8, 9, 10, 11, 12],
        ethtype := 3, payload := .unknown [20, 30, 40] }
     let bytes : List Nat := [1, 2, 3, 4, 5, 6, 7, 8, 9, 10, 11, 12, 0, 3,
       20, 30, 40, 169, 14, 180, 14]
     f.Consistent ∧ EthFrame.ontoWriter f = .ok bytes ∧
     EthFrame.fromReader bytes =
       (.ok f, bytes.drop (bytes.length - 4)) ∧
     (bytes.drop (bytes.length - 4)).length = 4) :=
  ⟨by decide, by rfl,
   (eth_roundtrip_consistent
     { dst := [1, 2, 3, 4, 5, 6], src := [7, 8, 9, 10, 11, 12],
       ethtype := 3, payload := .unknown [20, 30, 40] }
     [1, 2, 3, 4, 5, 6, 7, 8, 9, 10, 11, 12, 0, 3, 20, 30, 40, 169, 14,
      180, 14] (by decide) (by rfl)).1,
   (eth_roundtrip_consistent
     { dst := [1, 2, 3, 4, 5, 6], src := [7, 8, 9, 10, 11, 12],
       ethtype := 3, payload := .unknown [20, 30, 40] }
     [1, 2, 3, 4, 5, 6, 7, 8, 9, 10, 11, 12, 0, 3, 20, 30, 40, 169, 14,
      180, 14] (by decide) (by rfl)).2.1⟩
